import Mathlib

/-!
Verification of the MABE2 configuration/query core against its specification.

The development shallowly embeds the two source files of the repository:

* `src/source/core/Module.h`     — trait declaration (`Module::AddTrait`,
  `TraitInfo`, `TypedTraitInfo`);
* `src/source/core/MABEScript.hpp` — the macro preprocessor
  (`MABEScript::Preprocess`), the equation builder (`BuildTraitEquation`),
  the summary builder (`BuildTraitSummary`), the query façade
  (`BuildTraitFunction`) and the `FILTER` member function.

External collaborators that the repository uses but whose code is not under
`src/` (the `emp` library helpers `find_paren_match`, `is_identifier`,
`to_literal`, the `DataMap`/`DataLayout` machinery, `Collection.hpp`,
`Population.hpp` and `data_collect.hpp`'s `emp::BuildCollectFun`) are
modelled from the specification, or taken as explicit function parameters
when only their interface matters.  Every such definition carries a doc
comment saying so.

The embedded script interpreter (`Execute`) is a parameter `ev`, and the
`emp::DataMapParser` equation compiler is a parameter `bm`: the theorems
quantify over them.
-/

/-- Single quote character, written via its code point so that source text
stays plain. -/
def squote : String := String.mk [Char.ofNat 39]

/-- Double quote character, written via its code point. -/
def dquote : String := String.mk [Char.ofNat 34]

/-!
## The macro preprocessor (`MABEScript::Preprocess`, MABEScript.hpp lines 60-83)

The C++ loop walks an index `i` over a mutable copy `out_string` of the
input.  Every decision made at index `i` depends only on the characters from
`i` onwards, and characters before `i` are never changed again, so the loop
is embedded as a function on the remaining suffix (a `List Char`); the
already-processed prefix is re-attached by each equation.  The index
arithmetic translates as follows, with `rest` the suffix after the current
character:

* `out_string.size() <= i+2`  ⟺  `rest.length ≤ 1`;
* `out_string.erase(i,1); continue;` (the doubled-dollar case) steps past
  the remaining literal `$` and scans on from the next character;
* after `out_string.replace(i, end_pos-i+1, new_text)` the statement
  `i += new_text.size();` followed by the loop's `++i` resumes the scan at
  the *second* character after the spliced text, so one character after the
  splice is emitted unexamined.

Recursion is bounded by a fuel argument: every step shortens the remaining
suffix by at least one character, so `rest.length` fuel always suffices
(`ppRun` below applies the fuel; `ppFuel_mono` shows any larger fuel gives
the same result).
-/

/-- Modelled from the spec: `emp::find_paren_match(out_string, i+1, '{', '}',
false)` of the Empirical library (not under `src/`), called with
`out_string[i+1] == '{'`.  Starting *after* the open brace (depth `0` stands
for the single already-open brace), it scans for the balancing close brace;
`some (interior, suffix)` splits the input as `interior ++ '}' :: suffix`
with the returned brace the balanced match, and `none` is the C++ "returns
`start_pos`" failure case.  Quote skipping is off (`false` argument). -/
def matchClose : List Char → Nat → Option (List Char × List Char)
  | [], _ => none
  | c :: rest, depth =>
    if c = '}' then
      if depth = 0 then some ([], rest)
      else (matchClose rest (depth - 1)).map (fun p => (c :: p.1, p.2))
    else if c = '{' then
      (matchClose rest (depth + 1)).map (fun p => (c :: p.1, p.2))
    else
      (matchClose rest depth).map (fun p => (c :: p.1, p.2))

/-- One fuel-bounded step structure of the `Preprocess` scan over the
remaining suffix.  `ev` embeds the interpreter call `Execute`.  Faithful
image of MABEScript.hpp lines 64-80; see the section comment for the index
translation.  The singleton pattern merges two source cases that agree: for
a last character `c`, both the size guard (when `c` is a dollar) and the
plain copy (otherwise) leave `[c]` unchanged. -/
def ppFuel (ev : String → String) : Nat → List Char → List Char
  | 0, s => s
  | _ + 1, [] => []
  | _ + 1, [c] => [c]
  | f + 1, c :: c2 :: rest2 =>
    if c = '$' then
      if (c2 :: rest2).length ≤ 1 then c :: c2 :: rest2
      else if c2 = '$' then '$' :: ppFuel ev f rest2
      else if c2 = '{' then
        match matchClose rest2 0 with
        | none => '$' :: '{' :: rest2
        | some (int, suf) =>
          match suf with
          | [] => (ev (String.mk int)).toList
          | s0 :: suf2 => (ev (String.mk int)).toList ++ s0 :: ppFuel ev f suf2
      else '$' :: ppFuel ev f (c2 :: rest2)
    else c :: ppFuel ev f (c2 :: rest2)

/-- The `Preprocess` scan on a character list, with just enough fuel. -/
def ppRun (ev : String → String) (s : List Char) : List Char :=
  ppFuel ev s.length s

/-- `MABEScript::Preprocess` (MABEScript.hpp lines 60-83): find any
instances of a dollar-brace tag and evaluate their interior with the
embedded interpreter `ev`; collapse doubled dollars. -/
def Preprocess (ev : String → String) (in_string : String) : String :=
  String.mk (ppRun ev in_string.toList)

/-- `matchClose` really splits its input at the balanced close brace. -/
theorem matchClose_eq_append :
    ∀ (s : List Char) (d : Nat) (int suf : List Char),
      matchClose s d = some (int, suf) → s = int ++ '}' :: suf := by
  intro s
  induction s with
  | nil =>
    intro d int suf h
    exact absurd h (by simp [matchClose])
  | cons c rest ih =>
    intro d int suf h
    simp only [matchClose] at h
    by_cases hc : c = '}'
    · subst hc
      rw [if_pos rfl] at h
      by_cases hd : d = 0
      · subst hd
        rw [if_pos rfl] at h
        simp only [Option.some.injEq, Prod.mk.injEq] at h
        obtain ⟨h1, h2⟩ := h
        subst h1
        subst h2
        rfl
      · rw [if_neg hd] at h
        cases hm : matchClose rest (d - 1) with
        | none => rw [hm] at h; simp at h
        | some p =>
          obtain ⟨i1, s1⟩ := p
          rw [hm] at h
          simp only [Option.map_some', Option.some.injEq, Prod.mk.injEq] at h
          obtain ⟨h1, h2⟩ := h
          subst h1
          subst h2
          rw [ih _ _ _ hm, List.cons_append]
    · rw [if_neg hc] at h
      by_cases hb : c = '{'
      · subst hb
        rw [if_pos rfl] at h
        cases hm : matchClose rest (d + 1) with
        | none => rw [hm] at h; simp at h
        | some p =>
          obtain ⟨i1, s1⟩ := p
          rw [hm] at h
          simp only [Option.map_some', Option.some.injEq, Prod.mk.injEq] at h
          obtain ⟨h1, h2⟩ := h
          subst h1
          subst h2
          rw [ih _ _ _ hm, List.cons_append]
      · rw [if_neg hb] at h
        cases hm : matchClose rest d with
        | none => rw [hm] at h; simp at h
        | some p =>
          obtain ⟨i1, s1⟩ := p
          rw [hm] at h
          simp only [Option.map_some', Option.some.injEq, Prod.mk.injEq] at h
          obtain ⟨h1, h2⟩ := h
          subst h1
          subst h2
          rw [ih _ _ _ hm, List.cons_append]

/-- Extra fuel does not change the scan, as long as the fuel covers the
length of the remaining suffix. -/
theorem ppFuel_mono (ev : String → String) :
    ∀ f1 : Nat, ∀ s : List Char, ∀ f2 : Nat,
      s.length ≤ f1 → s.length ≤ f2 → ppFuel ev f1 s = ppFuel ev f2 s := by
  intro f1
  induction f1 with
  | zero =>
    intro s f2 h1 _
    have hs : s = [] := List.length_eq_zero.mp (Nat.le_zero.mp h1)
    subst hs
    cases f2 <;> rfl
  | succ f ih =>
    intro s f2 h1 h2
    cases s with
    | nil => cases f2 <;> rfl
    | cons c rest =>
      cases f2 with
      | zero => simp at h2
      | succ g =>
        cases rest with
        | nil => rfl
        | cons c2 rest2 =>
          have hr1 : rest2.length + 2 ≤ f + 1 := by simpa using h1
          have hr2 : rest2.length + 2 ≤ g + 1 := by simpa using h2
          by_cases hc : c = '$'
          · by_cases hl : rest2 = []
            · subst hl
              simp [ppFuel, hc]
            · by_cases hc2 : c2 = '$'
              · have he := ih rest2 g (by omega) (by omega)
                simp [ppFuel, hc, hl, hc2, he]
              · by_cases hb : c2 = '{'
                · cases hm : matchClose rest2 0 with
                  | none => simp [ppFuel, hc, hl, hc2, hb, hm]
                  | some p =>
                    obtain ⟨int, suf⟩ := p
                    cases suf with
                    | nil => simp [ppFuel, hc, hl, hc2, hb, hm]
                    | cons s0 suf2 =>
                      have hsp := matchClose_eq_append rest2 0 int (s0 :: suf2) hm
                      have hr : rest2.length = int.length + suf2.length + 2 := by
                        rw [hsp]
                        simp only [List.length_append, List.length_cons]
                        omega
                      have he := ih suf2 g (by omega) (by omega)
                      simp [ppFuel, hc, hl, hc2, hb, hm, he]
                · have he := ih (c2 :: rest2) g (by simp; omega) (by simp; omega)
                  simp [ppFuel, hc, hl, hc2, hb, he]
          · have he := ih (c2 :: rest2) g (by simp; omega) (by simp; omega)
            simp [ppFuel, hc, he]

/-- Scan equation: the empty string is returned unchanged. -/
theorem ppRun_nil (ev : String → String) : ppRun ev [] = [] := rfl

/-- Scan equation: a character other than the dollar sign is copied through
and the scan moves on. -/
theorem ppRun_copy (ev : String → String) (c : Char) (s : List Char)
    (hc : c ≠ '$') : ppRun ev (c :: s) = c :: ppRun ev s := by
  cases s with
  | nil => simp [ppRun, ppFuel]
  | cons a t => simp [ppRun, ppFuel, hc]

/-- Scan equation: a dollar sign with at most one character after it stops
the scan (`out_string.size() <= i+2` in the source), leaving the tail
verbatim. -/
theorem ppRun_break (ev : String → String) (s : List Char)
    (h : s.length ≤ 1) : ppRun ev ('$' :: s) = '$' :: s := by
  cases s with
  | nil => rfl
  | cons a t =>
    cases t with
    | nil => rfl
    | cons x y => simp at h

/-- Scan equation: a doubled dollar with at least one more character after
the pair collapses to one dollar, and the scan continues after the
collapsed dollar without re-reading it. -/
theorem ppRun_dollar_dollar (ev : String → String) (s : List Char)
    (h : s ≠ []) : ppRun ev ('$' :: '$' :: s) = '$' :: ppRun ev s := by
  have hl : ¬ (('$' :: s).length ≤ 1) := by
    cases s with
    | nil => exact absurd rfl h
    | cons a t => simp
  have step : ppRun ev ('$' :: '$' :: s) =
      if ('$' :: s).length ≤ 1 then '$' :: '$' :: s
      else '$' :: ppFuel ev ('$' :: s).length s := rfl
  rw [step, if_neg hl]
  exact congrArg (fun l => '$' :: l)
    (ppFuel_mono ev ('$' :: s).length s s.length (by simp) (Nat.le_refl _))

/-- Scan equation: a dollar sign followed by a character that is neither a
dollar nor an open brace is copied through and the scan continues at that
next character. -/
theorem ppRun_dollar_other (ev : String → String) (c : Char) (s : List Char)
    (hc : c ≠ '$') (hb : c ≠ '{') :
    ppRun ev ('$' :: c :: s) = '$' :: ppRun ev (c :: s) := by
  cases s with
  | nil => rw [ppRun_copy ev c [] hc]; rfl
  | cons a t =>
    have hl : ¬ ((c :: a :: t).length ≤ 1) := by simp
    have step : ppRun ev ('$' :: c :: a :: t) =
        if (c :: a :: t).length ≤ 1 then '$' :: c :: a :: t
        else if c = '$' then '$' :: ppFuel ev (c :: a :: t).length (a :: t)
        else if c = '{' then
          match matchClose (a :: t) 0 with
          | none => '$' :: '{' :: a :: t
          | some (int, suf) =>
            match suf with
            | [] => (ev (String.mk int)).toList
            | s0 :: suf2 =>
              (ev (String.mk int)).toList ++ s0 :: ppFuel ev (c :: a :: t).length suf2
        else '$' :: ppFuel ev (c :: a :: t).length (c :: a :: t) := rfl
    rw [step, if_neg hl, if_neg hc, if_neg hb]
    rfl

/-- Scan equation for an open tag: if no balanced close brace exists the
scan stops and the tail is returned verbatim; if one exists, the interior is
evaluated, the result is spliced in unexamined, the character immediately
after the spliced text is also emitted unexamined, and the scan resumes
after it. -/
theorem ppRun_tag (ev : String → String) (s : List Char) :
    ppRun ev ('$' :: '{' :: s) =
      match matchClose s 0 with
      | none => '$' :: '{' :: s
      | some (int, suf) =>
        (ev (String.mk int)).toList ++
          (match suf with
           | [] => []
           | s0 :: suf2 => s0 :: ppRun ev suf2) := by
  cases s with
  | nil => rfl
  | cons a t =>
    have step : ppRun ev ('$' :: '{' :: a :: t) =
        match matchClose (a :: t) 0 with
        | none => '$' :: '{' :: a :: t
        | some (int, suf) =>
          match suf with
          | [] => (ev (String.mk int)).toList
          | s0 :: suf2 =>
            (ev (String.mk int)).toList ++ s0 :: ppFuel ev ('{' :: a :: t).length suf2 := rfl
    rw [step]
    cases hm : matchClose (a :: t) 0 with
    | none => rfl
    | some p =>
      obtain ⟨int, suf⟩ := p
      cases suf with
      | nil => simp
      | cons s0 suf2 =>
        have hsp := matchClose_eq_append (a :: t) 0 int (s0 :: suf2) hm
        have hr : t.length + 1 = int.length + (suf2.length + 1 + 1) := by
          have hlen := congrArg List.length hsp
          simpa [List.length_append] using hlen
        simp only []
        exact congrArg (fun l => (ev (String.mk int)).toList ++ s0 :: l)
          (ppFuel_mono ev ('{' :: a :: t).length suf2 suf2.length
            (by simp; omega) (Nat.le_refl _))

/-!
## Trait declaration (`Module.h` lines 26-249)

`Module` owns a name, an error list, and `trait_map`, a map from trait name
to a (type-erased, heap-allocated) `TraitInfo`.  `TypedTraitInfo<T>` adds a
`default_value : T` plus a `has_default` flag and overrides the virtual
`HasDefault`.

The C++ `AddTrait<T>(access, in_name, desc)` (Module.h lines 193-204)
builds the record with `emp::NewPtr<TypedTraitInfo<T>>(in_name, desc)`.
`TypedTraitInfo<T>` has exactly two constructors, `(name)` and
`(name, default)`; passing two strings therefore selects the
`(name, default)` constructor, converting the *description* into the
default value — `desc` is never stored in the `desc` field.  This only
compiles when `T` is implicitly constructible from `std::string`; the
embedding takes that conversion as the parameter `conv` and covers every
instantiation that compiles (for `T = std::string`, `conv = id`).

The map is monomorphic in `T` here: the C++ type erasure through
`emp::Ptr<TraitInfo>` with virtual dispatch of `HasDefault` is reflected by
keeping the full typed record, whose `has_default` field is exactly what
the virtual call returns.
-/

/-- `TraitInfo::Access` (Module.h lines 53-59). -/
inductive Access where
  | UNKNOWN
  | OWNED
  | SHARED
  | REQUIRED
  | PRIVATE
deriving DecidableEq, Repr

/-- `TraitInfo::Init` (Module.h lines 65-71). -/
inductive TraitInit where
  | DEFAULT
  | PARENT
  | AVERAGE
  | MINIMUM
  | MAXIMUM
deriving DecidableEq, Repr

/-- `TraitInfo::Archive` (Module.h lines 76-82). -/
inductive TraitArchive where
  | NONE
  | LAST_RESET
  | ALL_RESET
  | ALL_CHANGE
deriving DecidableEq, Repr

/-- `Module::TypedTraitInfo<T>` (Module.h lines 109-134) together with its
base `TraitInfo` fields (lines 47-83).  `type` carries the
`emp::GetTypeID<T>()` tag as a name. -/
structure TypedTraitInfo (T : Type) where
  name : String
  desc : String
  type : String
  access : Access
  init : TraitInit
  reset_parent : Bool
  archive : TraitArchive
  default_value : T
  has_default : Bool
deriving DecidableEq

/-- The one-argument constructor `TypedTraitInfo(in_name)` (Module.h lines
114-118): no default; `default_value` stays default-constructed (`T()`,
here `Inhabited.default`). -/
def TypedTraitInfo.mkNamed (T : Type) [Inhabited T] (tyName : String)
    (in_name : String) : TypedTraitInfo T :=
  { name := in_name, desc := "", type := tyName, access := Access.UNKNOWN
    init := TraitInit.DEFAULT, reset_parent := false
    archive := TraitArchive.NONE, default_value := default
    has_default := false }

/-- The two-argument constructor `TypedTraitInfo(in_name, in_default)`
(Module.h lines 120-125). -/
def TypedTraitInfo.mkWithDefault (T : Type) (tyName : String)
    (in_name : String) (in_default : T) : TypedTraitInfo T :=
  { name := in_name, desc := "", type := tyName, access := Access.UNKNOWN
    init := TraitInit.DEFAULT, reset_parent := false
    archive := TraitArchive.NONE, default_value := in_default
    has_default := true }

/-- Virtual `HasDefault()` (Module.h lines 85 and 127): the base returns
`false`; `TypedTraitInfo` overrides it with its `has_default` field, which
is what a call through the type-erased `TraitInfo` pointer dispatches to. -/
def TypedTraitInfo.HasDefault {T : Type} (t : TypedTraitInfo T) : Bool :=
  t.has_default

/-- `TypedTraitInfo::SetDefault` (Module.h lines 129-133). -/
def TypedTraitInfo.SetDefault {T : Type} (t : TypedTraitInfo T)
    (in_default : T) : TypedTraitInfo T :=
  { t with default_value := in_default, has_default := true }

/-- The part of `Module` state that trait declaration touches (Module.h
lines 28-29 and 136): the module's name, its error list, and `trait_map`. -/
structure ModuleState (T : Type) where
  name : String
  errors : List String
  trait_map : String → Option (TypedTraitInfo T)

/-- The error string pushed by `AddError` inside `AddTrait` (Module.h line
198): `Module <name> is creating a duplicate trait named <quoted name>.` -/
def dupTraitMsg (moduleName in_name : String) : String :=
  "Module " ++ moduleName ++ " is creating a duplicate trait named " ++
    squote ++ in_name ++ squote ++ "."

/-- `Module::AddTrait<T>(access, in_name, desc)` (Module.h lines 193-204).
`conv` is the implicit `std::string → T` conversion that overload
resolution applies when passing `desc` to the `(name, default)`
constructor (see the section comment); `tyName` names `T`.  Returns the
updated module state and the new record (the C++ returns a reference to
it; the map stores the same object). -/
def AddTrait {T : Type} (conv : String → T) (tyName : String)
    (m : ModuleState T) (access : Access) (in_name desc : String) :
    ModuleState T × TypedTraitInfo T :=
  let m1 :=
    if (m.trait_map in_name).isSome then
      { m with errors := m.errors ++ [dupTraitMsg m.name in_name] }
    else m
  let new_ptr :=
    { TypedTraitInfo.mkWithDefault T tyName in_name (conv desc) with
        access := access }
  ({ m1 with
      trait_map := fun k => if k = in_name then some new_ptr else m1.trait_map k },
   new_ptr)

/-- `Module::AddTrait<T>(access, name, desc, default_val)` (Module.h lines
208-214): calls the three-argument overload, then `SetDefault` on the
returned reference.  Because the map stores the same heap object the C++
reference aliases, the map entry is updated too. -/
def AddTraitWithDefault {T : Type} (conv : String → T) (tyName : String)
    (m : ModuleState T) (access : Access) (name desc : String)
    (default_val : T) : ModuleState T × TypedTraitInfo T :=
  let (m1, r) := AddTrait conv tyName m access name desc
  let r2 := r.SetDefault default_val
  ({ m1 with
      trait_map := fun k => if k = name then some r2 else m1.trait_map k },
   r2)

/-!
## The query engine (`MABEScript.hpp` lines 48-52, 110-188, 268-279)

`DataLayout`, `DataMap`, `Organism`, `Population` and `Collection` live in
repository files that are not under `src/` (`Collection.hpp`,
`Population.hpp`, and the `emp` data layer); they are modelled from the
spec below.  The `emp::DataMapParser` equation compiler and
`emp::BuildCollectFun` (`data_collect.hpp`, also not under `src/`) enter
the embedding as explicit function parameters `bm`, `cfStr` and `cfNum`:
only their interfaces matter to the claims, and the theorems quantify over
them.  `emp::BuildCollectFun` returns a `std::function<std::string(...)>`
for both the string and the numeric instantiation (see the source comment
at MABEScript.hpp line 165), which is empty/null exactly when the mode
string is not recognized (line 158: "If we don't have a fun, we weren't
able to build an aggregation function"); a `none` result of `cfStr`/`cfNum`
models that null function.  Numeric per-organism values are modelled as
rationals.
-/

/-- Modelled from the spec: the frozen, merged name-to-(type, slot) mapping
(`emp::DataLayout`).  `entries` lists (trait name, type tag) in slot order;
`numericTags` says which type tags count as numeric. -/
structure DataLayout where
  entries : List (String × String)
  numericTags : List String
deriving DecidableEq

/-- Modelled from the spec: `data_layout.HasName(name)`. -/
def DataLayout.HasName (dl : DataLayout) (name : String) : Bool :=
  (dl.entries.map Prod.fst).contains name

/-- Modelled from the spec: `data_layout.GetID(name)` — the storage slot of
a trait name. -/
def DataLayout.GetID (dl : DataLayout) (name : String) : Nat :=
  (dl.entries.map Prod.fst).indexOf name

/-- Modelled from the spec: `data_layout.GetType(trait_id)` — the type tag
stored at a slot. -/
def DataLayout.GetType (dl : DataLayout) (trait_id : Nat) : String :=
  ((dl.entries.get? trait_id).map Prod.snd).getD ""

/-- Modelled from the spec: `data_layout.IsNumeric(name)` — whether the
named trait's type is numeric. -/
def DataLayout.IsNumeric (dl : DataLayout) (name : String) : Bool :=
  dl.numericTags.contains (dl.GetType (dl.GetID name))

/-- Modelled from the spec: one organism's trait storage (`emp::DataMap`):
numeric values as a name-keyed association list, string values by slot. -/
structure Organism where
  dmap : List (String × Rat)
  strVals : List String
deriving DecidableEq

/-- Modelled from the spec: `org.GetTraitAsString(trait_id, result_type)` —
the value in the given slot rendered as a string (the type tag drives the
C++ rendering dispatch and is carried for faithfulness). -/
def Organism.GetTraitAsString (org : Organism) (trait_id : Nat)
    (_result_type : String) : String :=
  org.strVals.getD trait_id ""

/-- Modelled from the spec: a population (`Population.hpp`, not under
`src/`): an ordered list of organisms over one frozen layout.  A
`Collection` is the same data viewed as an arbitrary ordered sub-list, so
this one structure stands for both `FROM_T` instantiations. -/
structure Population where
  orgs : List Organism
  layout : DataLayout

/-- Modelled from the spec: `emp::is_identifier` (Empirical, not under
`src/`) — a bare identifier: non-empty, does not start with a digit, all
characters alphanumeric or underscore. -/
def is_identifier (s : String) : Bool :=
  !s.isEmpty && !(s.toList.headD ' ').isDigit &&
    s.toList.all (fun c => c.isAlphanum || c = '_')

/-- Modelled from the spec: `emp::to_literal` on a string — the value
formatted as a quoted literal (the C++ also escapes special characters;
the claims only use the quoting). -/
def to_literal (s : String) : String :=
  dquote ++ s ++ dquote

/-- `MABEScript::BuildTraitEquation` (MABEScript.hpp lines 48-52):
preprocess the equation (again — the caller in `BuildTraitSummary` has
already preprocessed once), compile it against the layout with the
`emp::DataMapParser` (the parameter `bm`), and wrap it to act on an
organism's data map. -/
def BuildTraitEquation (ev : String → String)
    (bm : DataLayout → String → (List (String × Rat) → Rat))
    (data_layout : DataLayout) (equation : String) : Organism → Rat :=
  let equation2 := Preprocess ev equation
  let dm_fun := bm data_layout equation2
  fun org => dm_fun org.dmap

/-- The error reported at MABEScript.hpp line 160:
`Unknown trait filter <quoted mode> for trait <quoted trait_fun>.` -/
def unknownFilterMsg (mode trait_fun : String) : String :=
  "Unknown trait filter " ++ squote ++ mode ++ squote ++ " for trait " ++
    squote ++ trait_fun ++ squote ++ "."

/-- `MABEScript::BuildTraitSummary` (MABEScript.hpp lines 110-176),
instantiated at one `TO_T` represented by `V` with `ofString` the
`TO_T = double` conversion `emp::from_string<double>` or the
`TO_T = std::string` identity; the `FROM_T = Population` wrappers only
precompose the `Collection(p)` view and are not repeated here.

The result pairs the built callable with the list of errors reported
through `emp::notify::Error` during the build.  A `none` callable models a
`std::function` whose invocation throws `std::bad_function_call`: in the
non-numeric single-trait branch the source returns the result of
`emp::BuildCollectFun` (or a lambda capturing it) *without* the null check
that the numeric branch performs at line 159, so an unrecognized mode
there produces `(none, [])` — no error, a throwing callable. -/
def BuildTraitSummary (V : Type) (typeDefault : V) (ofString : String → V)
    (ev : String → String)
    (bm : DataLayout → String → (List (String × Rat) → Rat))
    (cfStr : String → (Organism → String) → Option (List Organism → String))
    (cfNum : String → (Organism → Rat) → Option (List Organism → String))
    (trait_fun mode : String) (data_layout : DataLayout) :
    Option (List Organism → V) × List String :=
  let tf := Preprocess ev trait_fun
  if is_identifier tf && data_layout.HasName tf && !data_layout.IsNumeric tf then
    let trait_id := data_layout.GetID tf
    let result_type := data_layout.GetType trait_id
    let get_fun : Organism → String :=
      fun org => to_literal (org.GetTraitAsString trait_id result_type)
    match cfStr mode get_fun with
    | some f => (some (fun c => ofString (f c)), [])
    | none => (none, [])
  else
    let get_fun := BuildTraitEquation ev bm data_layout tf
    match cfNum mode get_fun with
    | none => (some (fun _ => typeDefault), [unknownFilterMsg mode tf])
    | some f => (some (fun c => ofString (f c)), [])

/-- `MABEScript::BuildTraitFunction` (MABEScript.hpp lines 181-188): the
returned query lambda.  A `none` result models a thrown
`std::bad_function_call` from invoking a null summary callable. -/
def BuildTraitFunction (V : Type) (typeDefault : V) (ofString : String → V)
    (ev : String → String)
    (bm : DataLayout → String → (List (String × Rat) → Rat))
    (cfStr : String → (Organism → String) → Option (List Organism → String))
    (cfNum : String → (Organism → Rat) → Option (List Organism → String))
    (fun_type : String) (default_val : V) :
    Population → String → Option V :=
  fun pop equation =>
    if pop.orgs.isEmpty then some default_val
    else
      let trait_fun :=
        BuildTraitSummary V typeDefault ofString ev bm cfStr cfNum
          equation fun_type pop.layout
      trait_fun.1.map (fun f => f pop.orgs)

/-- The `FILTER` member function (MABEScript.hpp lines 268-279): build the
trait equation once, then insert exactly the organisms whose value is
truthy (non-zero) into the output collection, in iteration order. -/
def FILTER (ev : String → String)
    (bm : DataLayout → String → (List (String × Rat) → Rat))
    (pop : Population) (trait_equation : String) : List Organism :=
  if pop.orgs.length > 0 then
    let filter := BuildTraitEquation ev bm pop.layout trait_equation
    pop.orgs.foldl (fun out_collect org =>
      if filter org ≠ 0 then out_collect ++ [org] else out_collect) []
  else []

/-!
## Concrete instances used by counterexamples and witnesses
-/

/-- An interpreter instance that evaluates every macro body to the empty
string (no macro body is ever reached in the statements that use it). -/
def evZero : String → String := fun _ => ""

/-- An interpreter instance evaluating the macro body `A` to `x` and `B`
to `y`. -/
def evAB : String → String :=
  fun s => if s = "A" then "x" else if s = "B" then "y" else ""

/-- An interpreter instance evaluating the macro body `a` to `t`. -/
def evC8 : String → String := fun s => if s = "a" then "t" else ""

/-- Helper: a conditional-append left fold (the shape of the `FILTER`
loop) is a filter. -/
theorem foldl_insert_eq_filter {α : Type} (P : α → Prop) [DecidablePred P] :
    ∀ (l acc : List α),
      l.foldl (fun out o => if P o then out ++ [o] else out) acc
        = acc ++ l.filter (fun o => decide (P o)) := by
  intro l
  induction l with
  | nil => intro acc; simp
  | cons a t ih =>
    intro acc
    simp only [List.foldl_cons, List.filter_cons]
    by_cases h : P a
    · rw [if_pos h]
      simp [h, ih (acc ++ [a])]
    · rw [if_neg h]
      simp [h, ih acc]

/-!
## Claim theorems
-/

/-- C10: `Preprocess` is the identity on strings without a dollar sign;
more generally every character outside a doubled-dollar pair or a
dollar-brace span is copied through unmodified: a dollar-free prefix is
copied verbatim in front of the scan of the remainder, and a lone dollar
sign (one followed by neither a dollar nor an open brace) is itself copied
through. -/
theorem preprocess_copies_plain_text :
    ∀ ev : String → String,
      (∀ s : String, (∀ c ∈ s.toList, c ≠ '$') → Preprocess ev s = s) ∧
      (∀ a b : List Char, (∀ c ∈ a, c ≠ '$') →
        ppRun ev (a ++ b) = a ++ ppRun ev b) ∧
      (∀ (c : Char) (s : List Char), c ≠ '$' → c ≠ '{' →
        ppRun ev ('$' :: c :: s) = '$' :: ppRun ev (c :: s)) := by
  intro ev
  have hmain : ∀ a b : List Char, (∀ c ∈ a, c ≠ '$') →
      ppRun ev (a ++ b) = a ++ ppRun ev b := by
    intro a
    induction a with
    | nil => intro b _; rfl
    | cons c t ih =>
      intro b hc
      rw [List.cons_append,
        ppRun_copy ev c (t ++ b) (hc c (by simp)),
        ih b (fun x hx => hc x (by simp [hx])), List.cons_append]
  refine ⟨?_, hmain, ?_⟩
  · intro s hs
    obtain ⟨l⟩ := s
    have h1 : ppRun ev (l ++ []) = l ++ ppRun ev [] := hmain l [] hs
    rw [List.append_nil, ppRun_nil, List.append_nil] at h1
    show String.mk (ppRun ev l) = String.mk l
    rw [h1]
  · intro c s hc hb
    exact ppRun_dollar_other ev c s hc hb

/-- C10 witness: a concrete dollar-free string is returned unchanged. -/
theorem preprocess_copies_plain_text_witness :
    (∀ c ∈ "hello".toList, c ≠ '$') ∧ Preprocess evZero "hello" = "hello" :=
  ⟨by decide, (preprocess_copies_plain_text evZero).1 "hello" (by decide)⟩

/-- C3 counterexample: on the two-character input of two dollar signs the
size guard (`out_string.size() <= i+2`, checked *before* the doubled-dollar
case) breaks out of the scan, so `Preprocess` returns the pair uncollapsed —
not the single dollar the claim requires. -/
theorem preprocess_trailing_pair_uncollapsed :
    Preprocess evZero "$$" = "$$" ∧ Preprocess evZero "$$" ≠ "$" := by
  constructor
  · rfl
  · decide

/-- C3 amended: a doubled dollar sign encountered by the scan is collapsed
to a single literal dollar that is not reinterpreted *provided at least one
character follows the pair*; a doubled dollar occupying the final two
characters of the string is left unchanged (so `Preprocess` maps the
two-character dollar pair to itself). -/
theorem preprocess_double_dollar_collapse :
    ∀ (ev : String → String) (s : List Char),
      (s ≠ [] → ppRun ev ('$' :: '$' :: s) = '$' :: ppRun ev s) ∧
      Preprocess ev (String.mk ['$', '$']) = String.mk ['$', '$'] := by
  intro ev s
  exact ⟨ppRun_dollar_dollar ev s, rfl⟩

/-- C3 amended witness: with a character after the pair, the pair collapses
and the scan continues on the tail. -/
theorem preprocess_double_dollar_collapse_witness :
    (['a'] ≠ ([] : List Char)) ∧
    ppRun evZero ['$', '$', 'a'] = '$' :: ppRun evZero ['a'] :=
  ⟨by decide, (preprocess_double_dollar_collapse evZero ['a']).1 (by decide)⟩

/-- C4 counterexample: after splicing the result of the first tag,
`i += new_text.size()` together with the loop's `++i` skips the character
immediately after the spliced text, so in two adjacent tags the second
tag's dollar sign is never examined and the second tag is NOT expanded:
with an evaluator sending `A` to `x` and `B` to `y`, the input of the two
adjacent tags yields `x$` followed by brace-`B`-brace — not the `xy` the
claim requires. -/
theorem preprocess_adjacent_tags_not_expanded :
    Preprocess evAB "$\x7bA\x7d$\x7bB\x7d" = "x$\x7bB\x7d" ∧
    Preprocess evAB "$\x7bA\x7d$\x7bB\x7d" ≠ "xy" := by
  constructor
  · rfl
  · decide

/-- C4 amended: when the scan matches a tag, the evaluator's result is
spliced in and is never re-scanned, the character immediately following the
spliced text is also emitted unexamined, and scanning resumes only at the
second character after the spliced text (hence a tag beginning immediately
after the splice is not expanded). -/
theorem preprocess_splice_resume :
    ∀ (ev : String → String) (s int suf : List Char),
      matchClose s 0 = some (int, suf) →
      ppRun ev ('$' :: '{' :: s) =
        (ev (String.mk int)).toList ++
          (match suf with
           | [] => []
           | s0 :: suf2 => s0 :: ppRun ev suf2) := by
  intro ev s int suf h
  rw [ppRun_tag, h]

/-- C4 amended witness: a concrete matched tag, spliced with the character
after it emitted unexamined. -/
theorem preprocess_splice_resume_witness :
    matchClose ['A', '}', 'q'] 0 = some (['A'], ['q']) ∧
    ppRun evAB ['$', '{', 'A', '}', 'q'] = ['x', 'q'] :=
  ⟨by decide, by
    rw [preprocess_splice_resume evAB ['A', '}', 'q'] ['A'] ['q'] (by decide)]
    decide⟩

/-- C8 counterexample: the input holds a tag over `a` followed by an
unmatched open tag whose body contains a doubled dollar.  Because the
post-splice scan skips the unmatched tag's dollar sign, the scan never
stops at the unmatched tag; it keeps going and collapses the later doubled
dollar, so the text from the unmatched tag onward is NOT left verbatim
(the suffix from the tag is nowhere in the output), contradicting the
claim's universal statement. -/
theorem preprocess_unmatched_after_splice_modified :
    Preprocess evC8 "$\x7ba\x7d$\x7bx$$y" = "t$\x7bx$y" ∧
    ¬ List.IsInfix "$\x7bx$$y".toList (Preprocess evC8 "$\x7ba\x7d$\x7bx$$y").toList := by
  constructor
  · rfl
  · decide

/-- C8 amended: whenever the scan itself reaches an open tag whose brace
has no balanced match in the remaining text, `Preprocess` raises no error
and the text from that point onward is left verbatim; in particular the
concrete input `a` + unmatched tag is returned unchanged.  (A tag that the
scan never reaches — because the character after a spliced tag is skipped —
enjoys no such guarantee, as the counterexample shows.) -/
theorem preprocess_unmatched_tag_verbatim :
    ∀ ev : String → String,
      (∀ s : List Char, matchClose s 0 = none →
        ppRun ev ('$' :: '{' :: s) = '$' :: '{' :: s) ∧
      Preprocess ev "a$\x7bunclosed" = "a$\x7bunclosed" := by
  intro ev
  constructor
  · intro s h
    rw [ppRun_tag, h]
  · show String.mk (ppRun ev ('a' :: '$' :: '{' :: "unclosed".toList)) = _
    rw [ppRun_copy ev 'a' _ (by decide), ppRun_tag,
      (by decide : matchClose "unclosed".toList 0 = none)]
    rfl

/-- C8 amended witness: a concrete unmatched tag reached by the scan is
left verbatim. -/
theorem preprocess_unmatched_tag_verbatim_witness :
    matchClose ['x'] 0 = none ∧
    ppRun evZero ['$', '{', 'x'] = ['$', '{', 'x'] :=
  ⟨by decide, (preprocess_unmatched_tag_verbatim evZero).1 ['x'] (by decide)⟩

/-- A fresh module with no declared traits, for witnesses. -/
def moduleFresh : ModuleState String :=
  { name := "mod", errors := [], trait_map := fun _ => none }

/-- The fresh module after one declaration of trait `x`. -/
def moduleWithX : ModuleState String :=
  (AddTrait id "std::string" moduleFresh Access.OWNED "x" "first declaration").1

/-- C1: re-declaring a trait name already present in the module's registry
appends exactly one error string naming the module and the duplicate trait
(the operation is total — nothing is thrown), leaves every other map entry
untouched, and is never silent about the stored access mode: the map entry
is indeed replaced by the second declaration's record (so its access mode
becomes the second declaration's), but the very same call records the
duplicate-trait error, so the overwrite is announced, not silent. -/
theorem addTrait_duplicate_one_error :
    ∀ (T : Type) (conv : String → T) (tyName : String) (m : ModuleState T)
      (access2 : Access) (n desc2 : String),
      (m.trait_map n).isSome = true →
      ((AddTrait conv tyName m access2 n desc2).1.errors
          = m.errors ++ [dupTraitMsg m.name n]) ∧
      (((AddTrait conv tyName m access2 n desc2).1.trait_map n).map
          (fun ti => ti.access) = some access2) ∧
      (∀ k, k ≠ n →
        (AddTrait conv tyName m access2 n desc2).1.trait_map k
          = m.trait_map k) := by
  intro T conv tyName m access2 n desc2 h
  refine ⟨?_, ?_, ?_⟩
  · simp [AddTrait, h]
  · simp [AddTrait]
  · intro k hk
    simp [AddTrait, hk, h]

/-- C1 witness: a concrete module re-declaring trait `x` gains exactly the
one duplicate error. -/
theorem addTrait_duplicate_one_error_witness :
    ((moduleWithX.trait_map "x").isSome = true) ∧
    ((AddTrait id "std::string" moduleWithX Access.SHARED "x"
        "second declaration").1.errors
      = moduleWithX.errors ++ [dupTraitMsg moduleWithX.name "x"]) :=
  ⟨by decide,
   (addTrait_duplicate_one_error String id "std::string" moduleWithX
      Access.SHARED "x" "second declaration" (by decide)).1⟩

/-- C2 (code bug exhibit): `AddTrait(access, in_name, desc)` always builds
its record through the `(name, default)` constructor — the description is
converted into the default value — so the created trait reports
`HasDefault() = true` for *every* instantiation that compiles, in
particular for a string-typed trait declared with only an access mode, a
name and a description.  The claim (and the function's own documentation)
requires `false` here. -/
theorem addTrait_desc_becomes_default :
    (∀ (T : Type) (conv : String → T) (tyName : String) (m : ModuleState T)
        (access : Access) (n desc : String),
        ((AddTrait conv tyName m access n desc).2).HasDefault = true) ∧
    ((AddTrait id "std::string" moduleFresh Access.OWNED "tag"
        "A descriptive string.").2).HasDefault = true := by
  exact ⟨fun T conv tyName m access n desc => rfl, rfl⟩

/-- A layout holding one non-numeric (string-typed) trait named `color`. -/
def layoutColor : DataLayout :=
  { entries := [("color", "std::string")],
    numericTags := ["double", "int", "size_t"] }

/-- Modelled from the spec: an aggregation-resolver instance
(`emp::BuildCollectFun` for string accessors) that recognizes no mode at
all — the instance used to exercise the unrecognized-mode paths. -/
def cfNoneStr : String → (Organism → String) → Option (List Organism → String) :=
  fun _ _ => none

/-- Modelled from the spec: the numeric counterpart of `cfNoneStr`. -/
def cfNoneNum : String → (Organism → Rat) → Option (List Organism → String) :=
  fun _ _ => none

/-- Modelled from the spec: a trivial `emp::DataMapParser` compiler
instance (returns zero for every equation); used where the compiled
equation is never invoked. -/
def bmZero : DataLayout → String → (List (String × Rat) → Rat) :=
  fun _ _ _ => 0

/-- An empty population over the `color` layout. -/
def popEmpty : Population := { orgs := [], layout := layoutColor }

/-- C5: on an empty population or collection the query function returned by
`BuildTraitFunction` yields the caller-supplied default, whatever the
equation string; and it does so without building or invoking the trait
summary or its reducer — the result is the same for *every* interpreter,
equation compiler and aggregation resolver, including ones that recognize
nothing. -/
theorem buildTraitFunction_empty_default :
    ∀ (V : Type) (td1 td2 : V) (os1 os2 : String → V)
      (ev1 ev2 : String → String)
      (bm1 bm2 : DataLayout → String → (List (String × Rat) → Rat))
      (cs1 cs2 : String → (Organism → String) → Option (List Organism → String))
      (cn1 cn2 : String → (Organism → Rat) → Option (List Organism → String))
      (fun_type : String) (default_val : V) (pop : Population)
      (equation : String),
      pop.orgs = [] →
      (BuildTraitFunction V td1 os1 ev1 bm1 cs1 cn1 fun_type default_val
          pop equation = some default_val) ∧
      (BuildTraitFunction V td1 os1 ev1 bm1 cs1 cn1 fun_type default_val
          pop equation
        = BuildTraitFunction V td2 os2 ev2 bm2 cs2 cn2 fun_type default_val
          pop equation) := by
  intro V td1 td2 os1 os2 ev1 ev2 bm1 bm2 cs1 cs2 cn1 cn2 ft dv pop eq h
  have he : pop.orgs.isEmpty = true := by simp [h]
  constructor
  · simp [BuildTraitFunction, he]
  · simp [BuildTraitFunction, he]

/-- C5 witness: a concrete empty population returns the concrete supplied
default. -/
theorem buildTraitFunction_empty_default_witness :
    (popEmpty.orgs = []) ∧
    (BuildTraitFunction String "" id evZero bmZero cfNoneStr cfNoneNum
        "mean" "0.0" popEmpty "x" = some "0.0") :=
  ⟨rfl,
   (buildTraitFunction_empty_default String "" "" id id evZero evZero
      bmZero bmZero cfNoneStr cfNoneStr cfNoneNum cfNoneNum
      "mean" "0.0" popEmpty "x" rfl).1⟩

/-- C6 (code bug exhibit): with the non-numeric trait `color` and an
unrecognized mode (the resolver builds no function for `bogus`), the
non-numeric single-trait branch of `BuildTraitSummary` reports *no* error
and hands back the resolver's null function (whose invocation throws),
while the numeric branch — here reached with the non-identifier equation
`x+1` — reports the error naming the bad mode and the trait string and
returns a callable yielding the type default value, as the claim demands
for both. -/
theorem buildTraitSummary_string_branch_silent_null :
    ((BuildTraitSummary String "" id evZero bmZero cfNoneStr cfNoneNum
        "color" "bogus" layoutColor).2 = []) ∧
    ((BuildTraitSummary String "" id evZero bmZero cfNoneStr cfNoneNum
        "color" "bogus" layoutColor).1.isNone = true) ∧
    ((BuildTraitSummary String "" id evZero bmZero cfNoneStr cfNoneNum
        "x+1" "bogus" layoutColor).2
      = [unknownFilterMsg "bogus" "x+1"]) ∧
    ((BuildTraitSummary String "" id evZero bmZero cfNoneStr cfNoneNum
        "x+1" "bogus" layoutColor).1.isSome = true) := by
  exact ⟨rfl, rfl, rfl, rfl⟩

/-- The claim's description of the per-organism accessor built in the
non-numeric single-trait branch: the trait value rendered as a quoted
literal (MABEScript.hpp lines 133-138). -/
def quotedTraitAccessor (layout : DataLayout) (p : String) : Organism → String :=
  fun org =>
    to_literal (org.GetTraitAsString (layout.GetID p)
      (layout.GetType (layout.GetID p)))

/-- The numeric-branch packaging of a resolver result (MABEScript.hpp
lines 156-176): a null resolver result is reported and replaced by a
type-default-yielding callable; otherwise the reducer is composed with the
output conversion. -/
def numericSummary (V : Type) (typeDefault : V) (ofString : String → V)
    (mode p : String) (fn? : Option (List Organism → String)) :
    Option (List Organism → V) × List String :=
  match fn? with
  | none => (some (fun _ => typeDefault), [unknownFilterMsg mode p])
  | some f => (some (fun c => ofString (f c)), [])

/-- C7: `BuildTraitSummary` first preprocesses the trait string; it builds
the string-valued quoted-literal accessor (and passes it to the string
resolver) exactly when the preprocessed string is a bare identifier that is
present in the layout and non-numeric; in every other case it hands the
preprocessed string to `BuildTraitEquation` — the numeric per-organism
equation compiler over the layout — and packages the numeric resolver's
result. -/
theorem buildTraitSummary_branching :
    ∀ (V : Type) (td : V) (os : String → V) (ev : String → String)
      (bm : DataLayout → String → (List (String × Rat) → Rat))
      (cfStr : String → (Organism → String) → Option (List Organism → String))
      (cfNum : String → (Organism → Rat) → Option (List Organism → String))
      (trait_fun mode : String) (layout : DataLayout),
      BuildTraitSummary V td os ev bm cfStr cfNum trait_fun mode layout =
        if is_identifier (Preprocess ev trait_fun)
            && layout.HasName (Preprocess ev trait_fun)
            && !layout.IsNumeric (Preprocess ev trait_fun) then
          ((cfStr mode (quotedTraitAccessor layout (Preprocess ev trait_fun))).map
              (fun f => fun c => os (f c)),
           [])
        else
          numericSummary V td os mode (Preprocess ev trait_fun)
            (cfNum mode
              (BuildTraitEquation ev bm layout (Preprocess ev trait_fun))) := by
  intro V td os ev bm cfStr cfNum trait_fun mode layout
  have hunfold : BuildTraitSummary V td os ev bm cfStr cfNum trait_fun mode layout
      = (if is_identifier (Preprocess ev trait_fun)
            && layout.HasName (Preprocess ev trait_fun)
            && !layout.IsNumeric (Preprocess ev trait_fun) then
          match cfStr mode (quotedTraitAccessor layout (Preprocess ev trait_fun)) with
          | some f => (some (fun c => os (f c)), ([] : List String))
          | none => (none, [])
        else
          match cfNum mode
              (BuildTraitEquation ev bm layout (Preprocess ev trait_fun)) with
          | none => (some (fun _ => td),
              [unknownFilterMsg mode (Preprocess ev trait_fun)])
          | some f => (some (fun c => os (f c)), [])) := rfl
  rw [hunfold]
  by_cases hcond : (is_identifier (Preprocess ev trait_fun)
      && layout.HasName (Preprocess ev trait_fun)
      && !layout.IsNumeric (Preprocess ev trait_fun)) = true
  · rw [if_pos hcond, if_pos hcond]
    cases hval : cfStr mode (quotedTraitAccessor layout (Preprocess ev trait_fun)) with
    | none => rfl
    | some f => rfl
  · rw [if_neg hcond, if_neg hcond]
    rfl

/-- Modelled from the spec: one organism holding the numeric trait `x`. -/
def orgX (v : Rat) : Organism := { dmap := [("x", v)], strVals := [] }

/-- A layout holding one numeric trait named `x`. -/
def layoutX : DataLayout :=
  { entries := [("x", "double")], numericTags := ["double", "int", "size_t"] }

/-- A population of four organisms with trait `x` values 5, 15, 20, 3. -/
def popX : Population :=
  { orgs := [orgX 5, orgX 15, orgX 20, orgX 3], layout := layoutX }

/-- Modelled from the spec: an `emp::DataMapParser` compiler instance for
the boolean-valued equation comparing `x` against 10 — truthy (one) exactly
when the organism's `x` exceeds 10, zero otherwise and for any other
equation. -/
def bmX : DataLayout → String → (List (String × Rat) → Rat) :=
  fun _ eq dm =>
    if eq = "x>10" then (if 10 < ((dm.lookup "x").getD 0) then 1 else 0) else 0

/-- C9: on a non-empty population, `FILTER` returns exactly the organisms
whose compiled per-organism equation value is non-zero, in the population's
iteration order; concretely, the equation comparing `x` against 10 over
trait values 5, 15, 20, 3 keeps exactly the organisms holding 15 and 20, in
that order. -/
theorem FILTER_keeps_truthy_in_order :
    (∀ (ev : String → String)
       (bm : DataLayout → String → (List (String × Rat) → Rat))
       (pop : Population) (trait_equation : String),
       pop.orgs ≠ [] →
       FILTER ev bm pop trait_equation =
         pop.orgs.filter (fun org =>
           decide (BuildTraitEquation ev bm pop.layout trait_equation org ≠ 0))) ∧
    FILTER evZero bmX popX "x>10" = [orgX 15, orgX 20] := by
  constructor
  · intro ev bm pop trait_equation h
    have hl : pop.orgs.length > 0 := List.length_pos.mpr h
    show (if pop.orgs.length > 0 then _ else _) = _
    rw [if_pos hl]
    simpa using foldl_insert_eq_filter
      (fun org => BuildTraitEquation ev bm pop.layout trait_equation org ≠ 0)
      pop.orgs []
  · decide

/-- C9 witness: the concrete non-empty population filtered by the concrete
compiled equation. -/
theorem FILTER_keeps_truthy_in_order_witness :
    (popX.orgs ≠ []) ∧
    FILTER evZero bmX popX "x>10" =
      popX.orgs.filter (fun org =>
        decide (BuildTraitEquation evZero bmX popX.layout "x>10" org ≠ 0)) :=
  ⟨by decide,
   FILTER_keeps_truthy_in_order.1 evZero bmX popX "x>10" (by decide)⟩
